import Mathlib

/-
  Verification development for the assistant repository
  (hybrid ingestion-and-retrieval engine).

  Shallow embedding conventions:
  - Go strings are modelled as Lean String (keys) or List Char (text being
    tokenized); all inputs of interest are ASCII, where Go bytes and runes
    coincide with Lean Char and Char.toNat is the byte value.
  - Go float64 is modelled as the reals, with the exact rational fragment
    (term frequencies, vector slots, dot products, squared magnitudes)
    carried in the rationals and cast into the reals where the source takes
    square roots or divides.
  - Go maps are modelled as association lists with insertion-order keys;
    map iteration order, which Go leaves unspecified, is made an explicit
    input (a list enumeration) wherever a result depends on it.
  - A fallible Go call returning error is modelled as Option or Except.
-/

namespace Assistant

/-! ### Go map model (association lists) -/

/-- Lookup in a Go map modelled as an association list. -/
def mapLookup {α : Type} : List (String × α) → String → Option α
  | [], _ => none
  | (k, v) :: rest, key => if k = key then some v else mapLookup rest key

/-- Insert-or-replace in a Go map (m[k] = v). -/
def mapInsert {α : Type} : List (String × α) → String → α → List (String × α)
  | [], key, v => [(key, v)]
  | (k, v') :: rest, key, v =>
      if k = key then (k, v) :: rest else (k, v') :: mapInsert rest key v

/-- Removal from a Go map (delete(m, k)). -/
def mapErase {α : Type} : List (String × α) → String → List (String × α)
  | [], _ => []
  | (k, v) :: rest, key => if k = key then rest else (k, v) :: mapErase rest key

/-! ### Data model: records, documents, dynamic values -/

/-- A Go interface value as stored in metadata maps and filters
(pkg/records/types.go: map from string to interface values). -/
inductive GoValue where
  | str (s : String)
  | num (n : Int)
  | boolean (b : Bool)
deriving DecidableEq

/-- fmt.Sprint on a dynamic value, as used by the service filter
(service.go line 176 converts the filter value to a string). -/
def goSprint : GoValue → String
  | .str s => s
  | .num n => toString n
  | .boolean b => if b then "true" else "false"

/-- records.Record (pkg/records/types.go).  The field recType embeds the Go
field Type (a RecordType string); time.Time timestamps are abstracted as
naturals; Title and Description appear in the storage-iteration of the
record type used by part_008 and are carried here so one structure
serves all iterations. -/
structure Record where
  id : String
  recType : String
  title : String
  description : String
  content : String
  metadata : List (String × GoValue)
  tags : List String
  createdAt : Nat
  updatedAt : Nat
deriving DecidableEq

/-- documents.Document (pkg/documents/types.go), restricted to the fields
the vector-search path reads. -/
structure Document where
  id : String
  title : String
  description : String
  content : String
deriving DecidableEq

/-! ### Embedder: tokenization (extractTerms) -/

/-- Separator predicate of the documents-package extractTerms
(localvectorstore.go line 127): a rune is a splitting character exactly
when it is not a lowercase letter and not a digit. -/
def sepDocs (r : Char) : Bool :=
  !((decide ('a' ≤ r) && decide (r ≤ 'z')) || (decide ('0' ≤ r) && decide (r ≤ '9')))

/-- Separator predicate of the records-package extractTerms
(ingestor.go concatenation line 372): `r < 'a' || r > 'z' && (r < '0' || r > '9')`.
Go conjunction binds tighter than disjunction, so this parses as
`r < 'a' || (r > 'z' && (r < '0' || r > '9'))`; in particular every digit
(digits are below character a) is a splitting character here. -/
def sepRecs (r : Char) : Bool :=
  decide (r < 'a') || (decide (r > 'z') && (decide (r < '0') || decide (r > '9')))

/-- strings.FieldsFunc: split around separator characters, keeping the
maximal nonempty runs of non-separators.  The first argument accumulates
the current run in reverse. -/
def fieldsFuncAux (sep : Char → Bool) : List Char → List Char → List (List Char)
  | cur, [] => if cur = [] then [] else [cur.reverse]
  | cur, c :: cs =>
      if sep c then
        if cur = [] then fieldsFuncAux sep [] cs
        else cur.reverse :: fieldsFuncAux sep [] cs
      else fieldsFuncAux sep (c :: cur) cs

/-- strings.FieldsFunc entry point. -/
def fieldsFunc (sep : Char → Bool) (text : List Char) : List (List Char) :=
  fieldsFuncAux sep [] text

/-- terms[word]++ on an association list keyed by the token. -/
def bumpCount : List (List Char × Nat) → List Char → List (List Char × Nat)
  | [], w => [(w, 1)]
  | (k, c) :: rest, w =>
      if k = w then (k, c + 1) :: rest else (k, c) :: bumpCount rest w

/-- The counting loop of extractTerms: every token longer than two
characters is tallied (len(word) > 2 is a byte count; for the ASCII
inputs modelled here it equals the character count). -/
def tallyTerms (words : List (List Char)) : List (List Char × Nat) :=
  words.foldl (fun m w => if w.length > 2 then bumpCount m w else m) []

/-- extractTerms, parametrized by the separator predicate (the two source
copies differ only there): lower-case, split, tally tokens of length > 2,
then normalize each count by the total number of tokens (the total counts
short tokens too).  Counts are held as naturals and cast at the division,
which is where the source first needs fractional values. -/
def extractTermsWith (sep : Char → Bool) (text : List Char) : List (List Char × ℚ) :=
  let lowered := text.map Char.toLower
  let words := fieldsFunc sep lowered
  let counts := tallyTerms words
  let total : ℚ := words.length
  if 0 < total then counts.map (fun p => (p.1, (p.2 : ℚ) / total))
  else counts.map (fun p => (p.1, (p.2 : ℚ)))

/-- extractTerms of pkg/documents/knowledgebase/localvectorstore.go. -/
def extractTermsD (text : List Char) : List (List Char × ℚ) :=
  extractTermsWith sepDocs text

/-- extractTerms of the records knowledge base (pkg/records/ingestor
concatenation, lines 365-391). -/
def extractTermsR (text : List Char) : List (List Char × ℚ) :=
  extractTermsWith sepRecs text

/-! ### Embedder: hashing and vectors (termsToVector, cosineSimilarity) -/

/-- simpleHash: polynomial string hash, multiplier 31, over the byte
values, in a uint32 accumulator (wraparound modelled by reducing modulo
2^32 at each step). -/
def simpleHash (s : List Char) : Nat :=
  s.foldl (fun h c => (h * 31 + c.toNat) % 4294967296) 0

/-- vectorSize := 100 (termsToVector). -/
def vectorSize : Nat := 100

/-- One accumulation step of termsToVector: vector[idx] += freq where
idx = int(simpleHash(term)) % vectorSize.  The uint32-to-int conversion is
value-preserving (64-bit int), so the index is the plain Nat remainder. -/
def accumStep (v : List ℚ) (p : List Char × ℚ) : List ℚ :=
  let idx := simpleHash p.1 % vectorSize
  v.set idx (v.getD idx 0 + p.2)

/-- The accumulation loop of termsToVector, before normalization. -/
def accumVector (terms : List (List Char × ℚ)) : List ℚ :=
  terms.foldl accumStep (List.replicate vectorSize 0)

/-- Sum of squares of a rational vector, as the source accumulates it. -/
def sumSqQ (v : List ℚ) : ℚ :=
  v.foldl (fun s x => s + x * x) 0

/-- Dot product of two rational vectors. -/
def dotQ (a b : List ℚ) : ℚ :=
  (a.zip b).foldl (fun s p => s + p.1 * p.2) 0

/-- Embed the exact rational vector into the reals. -/
def castVec (v : List ℚ) : List ℝ :=
  v.map (fun q => ((q : ℚ) : ℝ))

/-- termsToVector: accumulate hashed term frequencies into a 100-slot
vector, then L2-normalize; a zero-magnitude vector is left unchanged. -/
noncomputable def termsToVector (terms : List (List Char × ℚ)) : List ℝ :=
  let vec := castVec (accumVector terms)
  let magnitude := Real.sqrt (vec.foldl (fun a x => a + x * x) 0)
  if 0 < magnitude then vec.map (fun x => x / magnitude) else vec

/-- cosineSimilarity: 0 on length mismatch, 0 when either magnitude is
zero, otherwise dot product over the product of magnitudes. -/
noncomputable def cosineSimilarity (a b : List ℝ) : ℝ :=
  if a.length ≠ b.length then 0
  else
    let dotProduct := (a.zip b).foldl (fun s p => s + p.1 * p.2) 0
    let magA := Real.sqrt (a.foldl (fun s x => s + x * x) 0)
    let magB := Real.sqrt (b.foldl (fun s x => s + x * x) 0)
    if magA = 0 ∨ magB = 0 then 0 else dotProduct / (magA * magB)

/-! ### RecordStore: LocalStorage (part_008 lines 275-402) and
SQLiteStorage (part_008 lines 18-256) -/

/-- LocalStorage state: the in-memory cache map, which also stands for the
one-JSON-file-per-record directory (Store and Delete write cache and disk
together; marshalling and file writes are modelled as succeeding). -/
abbrev LSState : Type := List (String × Record)

/-- LocalStorage.Store: stamps updated_at, persists, updates the cache.
It performs no validation of the id; it returns the stored record (the
source mutates the record through a pointer). -/
def lsStore (now : Nat) (recs : LSState) (rec : Record) : LSState × Record :=
  let rec' := { rec with updatedAt := now }
  (mapInsert recs rec'.id rec', rec')

/-- LocalStorage.Get: cache lookup; none models the NotFound error. -/
def lsGet (recs : LSState) (id : String) : Option Record :=
  mapLookup recs id

/-- LocalStorage.Delete: NotFound (none) when the id is absent, otherwise
the state without the record. -/
def lsDelete (recs : LSState) (id : String) : Option LSState :=
  match mapLookup recs id with
  | none => none
  | some _ => some (mapErase recs id)

/-- SQLiteStorage.Store: a plain INSERT, so the only failure mode modelled
is the primary-key conflict on a duplicate id; no id validation, and the
caller's timestamps are written as given. -/
def sqlStore (tbl : List (String × Record)) (rec : Record) :
    Except Unit (List (String × Record)) :=
  match mapLookup tbl rec.id with
  | some _ => .error ()
  | none => .ok (mapInsert tbl rec.id rec)

/-! ### VectorIndex: LocalVectorStorage (records knowledge base) -/

/-- RecordEmbedding (records knowledge base).  The source also stores the
Vector field; it is always termsToVector of the stored Terms (Index
constructs both from the same terms), so it is carried as the derived
function RecordEmbedding.vector to keep states decidable. -/
structure RecordEmbedding where
  recID : String
  terms : List (List Char × ℚ)
  record : Record
deriving DecidableEq

/-- The Vector field of a stored RecordEmbedding. -/
noncomputable def RecordEmbedding.vector (e : RecordEmbedding) : List ℝ :=
  termsToVector e.terms

/-- LocalVectorStorage state: embeddings map keyed by record id. -/
abbrev VSState : Type := List (String × RecordEmbedding)

/-- LocalVectorStorage.Index: rejects an empty id, otherwise silently
replaces the embedding built from the record content. -/
def vsIndex (embs : VSState) (rec : Record) : Option VSState :=
  if rec.id = "" then none
  else some (mapInsert embs rec.id ⟨rec.id, extractTermsR rec.content.data, rec⟩)

/-- LocalVectorStorage.Delete: an error (none) when the id is absent. -/
def vsDelete (embs : VSState) (id : String) : Option VSState :=
  match mapLookup embs id with
  | none => none
  | some _ => some (mapErase embs id)

/-! ### Ingestor (pkg/records/ingestor/ingestor.go lines 39-63) and
RecordService.Ingest (pkg/records/service/service.go lines 53-81) -/

/-- The two shared mutable resources of the ingest pipeline. -/
structure SysState where
  storage : LSState
  vec : VSState
deriving DecidableEq

/-- Which wrapped stage of the upsert failed. -/
inductive IngestErr where
  | deleteStorageFailed
  | deleteVectorFailed
  | storeFailed
  | indexFailed
deriving DecidableEq

/-- Steps 3-4 of the upsert: store the record (always succeeds for the
local backend), then index it; an index failure is surfaced after the
store mutation has happened. -/
def recordIngestStore (now : Nat) (st : SysState) (rec : Record) :
    Except IngestErr Unit × SysState :=
  let stored := lsStore now st.storage rec
  match vsIndex st.vec rec with
  | none => (.error .indexFailed, ⟨stored.1, st.vec⟩)
  | some vec2 => (.ok (), ⟨stored.1, vec2⟩)

/-- RecordIngestor.Ingest: Get, then on hit Delete from storage and Delete
from the vector store (each failure, including the vector store's
record-not-found, is wrapped and returned), then Store and Index. -/
def recordIngest (now : Nat) (st : SysState) (rec : Record) :
    Except IngestErr Unit × SysState :=
  match lsGet st.storage rec.id with
  | some _ =>
      match lsDelete st.storage rec.id with
      | none => (.error .deleteStorageFailed, st)
      | some stor1 =>
          match vsDelete st.vec rec.id with
          | none => (.error .deleteVectorFailed, ⟨stor1, st.vec⟩)
          | some vec1 => recordIngestStore now ⟨stor1, vec1⟩ rec
  | none => recordIngestStore now st rec

/-- Validation errors and stage errors of RecordService.Ingest. -/
inductive ServiceErr where
  | idRequired
  | typeRequired
  | contentRequired
  | indexFailed
deriving DecidableEq

/-- RecordService.Ingest (the validating service iteration): reject a
missing id, type or content before touching storage; then Store and
Index.  The nil-metadata initialization is invisible here because
metadata is already a (possibly empty) map. -/
def serviceIngest (now : Nat) (st : SysState) (rec : Record) :
    Except ServiceErr Unit × SysState :=
  if rec.id = "" then (.error .idRequired, st)
  else if rec.recType = "" then (.error .typeRequired, st)
  else if rec.content = "" then (.error .contentRequired, st)
  else
    let stored := lsStore now st.storage rec
    match vsIndex st.vec rec with
    | none => (.error .indexFailed, ⟨stored.1, st.vec⟩)
    | some vec2 => (.ok (), ⟨stored.1, vec2⟩)

/-! ### Search-time metadata filters (two source variants) -/

/-- matchesFilters of pkg/records/service/service.go lines 172-191: "type"
compares the record type against fmt.Sprint of the value; every other key
is looked up in the metadata map and compared for interface equality; the
loop returns false at the first failing entry. -/
def matchesFiltersService (rec : Record) : List (String × GoValue) → Bool
  | [] => true
  | (key, value) :: rest =>
      if key = "type" then
        if rec.recType ≠ goSprint value then false
        else matchesFiltersService rec rest
      else
        match mapLookup rec.metadata key with
        | none => false
        | some metaValue =>
            if metaValue ≠ value then false
            else matchesFiltersService rec rest

/-- matchesTypeFilter of part_008: a non-string filter value passes. -/
def matchesTypeFilter (rec : Record) (value : GoValue) : Bool :=
  match value with
  | .str s => rec.recType = s
  | _ => true

/-- matchesTagFilter of part_008: a non-string value passes, a string
must be a member of the tag list. -/
def matchesTagFilter (rec : Record) (value : GoValue) : Bool :=
  match value with
  | .str s => rec.tags.contains s
  | _ => true

/-- matchesFilters of part_008 lines 498-517: only the keys "type" and
"tag" are inspected; any other key falls through the switch and is
ignored. -/
def matchesFiltersStorage (rec : Record) : List (String × GoValue) → Bool
  | [] => true
  | (key, value) :: rest =>
      if key = "type" then
        if !matchesTypeFilter rec value then false
        else matchesFiltersStorage rec rest
      else if key = "tag" then
        if !matchesTagFilter rec value then false
        else matchesFiltersStorage rec rest
      else matchesFiltersStorage rec rest

/-- What one filter entry requires under the service variant, spelled out
entry-wise to state conjunctivity. -/
def svcEntryHolds (rec : Record) (key : String) (value : GoValue) : Bool :=
  if key = "type" then rec.recType = goSprint value
  else
    match mapLookup rec.metadata key with
    | none => false
    | some metaValue => metaValue = value

/-- What one filter entry requires under the part_008 storage variant. -/
def storEntryHolds (rec : Record) (key : String) (value : GoValue) : Bool :=
  if key = "type" then matchesTypeFilter rec value
  else if key = "tag" then matchesTagFilter rec value
  else true

/-! ### Scrape drain loop (pkg/handler/localscraperhandler.go lines 37-65) -/

/-- Consumer-side state of the two-channel drain, for a run in which the
producer will deliver the queued items and then close each channel (the
claims quantify over runs where both channels are eventually closed).
recNil and errNil record that the consumer has set the channel to nil
after observing it closed. -/
structure DrainSt where
  recNil : Bool
  errNil : Bool
  recQ : List Record
  errQ : List String
  count : Nat
deriving DecidableEq

/-- How a drain run ends.  completed is the post-loop success return;
ingestFailed and scrapeError are the two in-loop returns; blocked is the
select statement waiting on two nil channels, which in Go blocks forever
(a nil channel case is never ready again). -/
inductive DrainOutcome where
  | completed (count : Nat)
  | ingestFailed
  | scrapeError
  | blocked
deriving DecidableEq

/-- The drain loop of LocalScraperHandler.Handle.  ingestOk models the
Ingestor (whether Ingest of a record succeeds); sched resolves the select
choice when both channels are ready (true picks the record channel); fuel
bounds the number of loop iterations examined, with none meaning the run
was not yet decided within the fuel.  A receive on a non-nil channel
yields the next queued item, or the closed signal (ok = false) when the
queue is empty; on the closed signal the code sets the channel to nil and
continues, skipping the bottom-of-loop exit check, exactly as the source
does. -/
def drainLoop (ingestOk : Record → Bool) (sched : Nat → Bool) :
    Nat → DrainSt → Option DrainOutcome
  | 0, _ => none
  | fuel + 1, st =>
      if st.recNil && st.errNil then some .blocked
      else
        if !st.recNil && (st.errNil || sched fuel) then
          match st.recQ with
          | [] => drainLoop ingestOk sched fuel { st with recNil := true }
          | r :: rest =>
              if ingestOk r then
                let st' := { st with recQ := rest, count := st.count + 1 }
                if st'.recNil && st'.errNil then some (.completed st'.count)
                else drainLoop ingestOk sched fuel st'
              else some .ingestFailed
        else
          match st.errQ with
          | [] => drainLoop ingestOk sched fuel { st with errNil := true }
          | _ :: _ => some .scrapeError

/-! ### VectorIndex search (pkg/documents/knowledgebase/localvectorstore.go
lines 61-100) -/

/-- documents.SearchResult. -/
structure DocSearchResult where
  document : Document
  score : ℝ

/-- DocumentEmbedding as Search reads it: the stored vector and the
document (DocID and Terms are not consulted by Search). -/
structure DocumentEmbedding where
  docID : String
  vector : List ℝ
  document : Document

/-- One inner pass of the score-descending bubble sort (lines 86-92):
adjacent results are swapped when the left score is smaller.  The source
bounds the inner loop at len-i-1; the skipped comparisons are within the
already-sorted suffix, where no swap can fire, so a full pass performs
the same swaps. -/
noncomputable def bubblePass : List DocSearchResult → List DocSearchResult
  | [] => []
  | [a] => [a]
  | a :: b :: rest =>
      if a.score < b.score then b :: bubblePass (a :: rest)
      else a :: bubblePass (b :: rest)
termination_by l => l.length
decreasing_by
  all_goals simp [List.length_cons]

/-- The outer loop: len-1 passes in total. -/
noncomputable def bubbleSortAux : Nat → List DocSearchResult → List DocSearchResult
  | 0, l => l
  | n + 1, l => bubbleSortAux n (bubblePass l)

/-- Sort results by descending score as the source does. -/
noncomputable def sortByScoreDesc (l : List DocSearchResult) : List DocSearchResult :=
  bubbleSortAux (l.length - 1) l

/-- LocalVectorStore.Search.  The embeddings map is supplied as a list:
one enumeration order of the Go map, which the language does not fix; a
second run over the same map may enumerate in another order.  Scores are
cosine similarity between the query vector and each stored vector;
non-positive scores are dropped, results are bubble-sorted by descending
score, and a positive limit truncates. -/
noncomputable def localSearch (embs : List DocumentEmbedding) (query : List Char)
    (limit : Int) : List DocSearchResult :=
  if embs.isEmpty then []
  else
    let queryVector := termsToVector (extractTermsD query)
    let results := embs.foldl
      (fun acc e =>
        let score := cosineSimilarity queryVector e.vector
        if 0 < score then acc ++ [⟨e.document, score⟩] else acc) []
    let sorted := sortByScoreDesc results
    if 0 < limit ∧ limit < (sorted.length : Int) then sorted.take limit.toNat
    else sorted

deriving instance DecidableEq for Except

/-! ### Helper lemmas: maps -/

/-- Looking up the key just inserted yields the inserted value. -/
theorem mapLookup_mapInsert_self {α : Type} (m : List (String × α)) (k : String) (v : α) :
    mapLookup (mapInsert m k v) k = some v := by
  induction m with
  | nil => simp [mapInsert, mapLookup]
  | cons p rest ih =>
      obtain ⟨k', v'⟩ := p
      by_cases h : k' = k
      · subst h
        simp [mapInsert, mapLookup]
      · simp [mapInsert, mapLookup, h, ih]

/-! ### Helper lemmas: folds over rational and real vectors -/

/-- The square-accumulating fold commutes with the cast into the reals. -/
theorem foldl_sq_cast : ∀ (l : List ℚ) (a : ℚ),
    List.foldl (fun s x => s + x * x) ((a : ℚ) : ℝ) (castVec l) =
      ((List.foldl (fun s x => s + x * x) a l : ℚ) : ℝ)
  | [], _ => by simp [castVec]
  | q :: l, a => by
      have hcast : ((a : ℝ) + (q : ℝ) * (q : ℝ)) = (((a + q * q : ℚ) : ℝ)) := by
        push_cast
        ring
      show List.foldl (fun s x => s + x * x) ((a : ℝ) + (q : ℝ) * (q : ℝ)) (castVec l) = _
      rw [hcast]
      exact foldl_sq_cast l (a + q * q)

/-- The dot-product fold commutes with the cast into the reals. -/
theorem foldl_dot_cast : ∀ (l m : List ℚ) (a : ℚ),
    List.foldl (fun s p => s + p.1 * p.2) ((a : ℚ) : ℝ) ((castVec l).zip (castVec m)) =
      ((List.foldl (fun s p => s + p.1 * p.2) a (l.zip m) : ℚ) : ℝ)
  | [], _, _ => by simp [castVec]
  | _ :: _, [], _ => by simp [castVec]
  | q :: l, r :: m, a => by
      have hcast : ((a : ℝ) + (q : ℝ) * (r : ℝ)) = (((a + q * r : ℚ) : ℝ)) := by
        push_cast
        ring
      show List.foldl (fun s p => s + p.1 * p.2) ((a : ℝ) + (q : ℝ) * (r : ℝ))
        ((castVec l).zip (castVec m)) = _
      rw [hcast]
      exact foldl_dot_cast l m (a + q * r)

/-- Dotting a rational vector with itself is its sum of squares. -/
theorem foldl_dot_self : ∀ (l : List ℚ) (a : ℚ),
    List.foldl (fun s p => s + p.1 * p.2) a (l.zip l) =
      List.foldl (fun s x => s + x * x) a l
  | [], _ => rfl
  | q :: l, a => foldl_dot_self l (a + q * q)

/-- Accumulating squares of zeros leaves the accumulator unchanged (reals). -/
theorem foldl_sq_replicate_zero_real : ∀ (n : Nat) (a : ℝ),
    List.foldl (fun s x => s + x * x) a (List.replicate n 0) = a
  | 0, _ => rfl
  | n + 1, a => by
      simp only [List.replicate_succ, List.foldl_cons, mul_zero, add_zero]
      exact foldl_sq_replicate_zero_real n a

/-- Accumulating squares over a zero vector with one slot set to x adds
x * x (rationals). -/
theorem foldl_sq_set (x : ℚ) : ∀ (n i : Nat) (a : ℚ), i < n →
    List.foldl (fun s y => s + y * y) a ((List.replicate n (0 : ℚ)).set i x) = a + x * x
  | 0, i, _, h => absurd h (Nat.not_lt_zero i)
  | n + 1, 0, a, _ => by
      simp only [List.replicate_succ, List.set_cons_zero, List.foldl_cons]
      have hz : ∀ (b : ℚ), List.foldl (fun s y => s + y * y) b (List.replicate n (0 : ℚ)) = b := by
        intro b
        induction n with
        | zero => rfl
        | succ k ih => simpa [List.replicate_succ] using ih
      simp [hz]
  | n + 1, i + 1, a, h => by
      simp only [List.replicate_succ, List.set_cons_succ, List.foldl_cons, mul_zero, add_zero]
      exact foldl_sq_set x n i a (Nat.lt_of_succ_lt_succ h)

/-! ### Helper lemmas: the embedding pipeline on concrete inputs -/

/-- accumVector always produces a vector of the configured size. -/
theorem accumVector_length (terms : List (List Char × ℚ)) :
    (accumVector terms).length = vectorSize := by
  suffices h : ∀ (ts : List (List Char × ℚ)) (v : List ℚ),
      (List.foldl accumStep v ts).length = v.length by
    simpa [accumVector] using h terms (List.replicate vectorSize 0)
  intro ts
  induction ts with
  | nil => intro v; rfl
  | cons p rest ih =>
      intro v
      simpa [accumStep, List.length_set] using ih (accumStep v p)

/-- extractTerms on a text that tokenizes to a single long word yields
that word with normalized frequency one. -/
theorem extractTermsWith_single (sep : Char → Bool) (text w : List Char)
    (hw : fieldsFunc sep (text.map Char.toLower) = [w]) (hlen : 2 < w.length) :
    extractTermsWith sep text = [(w, 1)] := by
  have htally : tallyTerms [w] = [(w, 1)] := by
    simp [tallyTerms, bumpCount, hlen]
  simp only [extractTermsWith, hw, htally]
  norm_num

/-- accumVector of a single term of frequency one is the zero vector with
the hashed slot set to one. -/
theorem accumVector_single (w : List Char) :
    accumVector [(w, 1)] =
      (List.replicate vectorSize (0 : ℚ)).set (simpleHash w % vectorSize) 1 := by
  have hidx : simpleHash w % vectorSize < vectorSize :=
    Nat.mod_lt _ (by simp [vectorSize])
  simp only [accumVector, List.foldl_cons, List.foldl_nil, accumStep]
  rw [List.getD_eq_getElem?_getD, List.getElem?_replicate, if_pos hidx]
  norm_num

/-- termsToVector of a single term of frequency one skips renormalization
up to the division by magnitude one: the result is the cast of the
one-hot rational vector. -/
theorem termsToVector_single (w : List Char) :
    termsToVector [(w, 1)] =
      castVec ((List.replicate vectorSize (0 : ℚ)).set (simpleHash w % vectorSize) 1) := by
  have hidx : simpleHash w % vectorSize < vectorSize :=
    Nat.mod_lt _ (by simp [vectorSize])
  have hfold :
      List.foldl (fun s x => s + x * x) (0 : ℝ)
        (castVec ((List.replicate vectorSize (0 : ℚ)).set (simpleHash w % vectorSize) 1)) =
        (1 : ℝ) := by
    have h0 : ((0 : ℚ) : ℝ) = (0 : ℝ) := by norm_num
    rw [← h0, foldl_sq_cast, foldl_sq_set 1 vectorSize _ 0 hidx]
    norm_num
  simp only [termsToVector, accumVector_single w]
  rw [hfold, Real.sqrt_one, if_pos one_pos]
  simp

/-- Cosine similarity of a cast rational vector of unit sum of squares
with itself is one. -/
theorem cosine_castVec_self (v : List ℚ) (h : sumSqQ v = 1) :
    cosineSimilarity (castVec v) (castVec v) = 1 := by
  unfold cosineSimilarity
  rw [if_neg (by simp)]
  have h0 : ((0 : ℚ) : ℝ) = (0 : ℝ) := by norm_num
  have hsq :
      List.foldl (fun s x => s + x * x) (0 : ℝ) (castVec v) = (1 : ℝ) := by
    rw [← h0, foldl_sq_cast]
    rw [show List.foldl (fun s x => s + x * x) 0 v = sumSqQ v from rfl, h]
    norm_num
  have hdot :
      List.foldl (fun s p => s + p.1 * p.2) (0 : ℝ) ((castVec v).zip (castVec v)) = (1 : ℝ) := by
    rw [← h0, foldl_dot_cast, foldl_dot_self]
    rw [show List.foldl (fun s x => s + x * x) 0 v = sumSqQ v from rfl, h]
    norm_num
  simp only [hsq, hdot, Real.sqrt_one]
  rw [if_neg (by norm_num)]
  norm_num

/-! ### Helper lemmas: the bubble sort of Search -/

/-- Sorted by descending score (every earlier result scores at least as
high as every later one). -/
def SortedDesc (l : List DocSearchResult) : Prop :=
  l.Pairwise (fun a b => b.score ≤ a.score)

/-- Unfolding: a pass over the empty result list. -/
theorem bubblePass_nil : bubblePass [] = [] := by
  rw [bubblePass]

/-- Unfolding: a pass over a single result. -/
theorem bubblePass_single (a : DocSearchResult) : bubblePass [a] = [a] := by
  rw [bubblePass]

/-- Unfolding: a pass over two or more results compares the first two. -/
theorem bubblePass_cons2 (a b : DocSearchResult) (rest : List DocSearchResult) :
    bubblePass (a :: b :: rest) =
      if a.score < b.score then b :: bubblePass (a :: rest)
      else a :: bubblePass (b :: rest) := by
  rw [bubblePass]

/-- One pass permutes the results. -/
theorem bubblePass_perm : ∀ (n : Nat) (l : List DocSearchResult),
    l.length ≤ n → (bubblePass l).Perm l
  | _, [], _ => by rw [bubblePass_nil]
  | _, [a], _ => by rw [bubblePass_single]
  | 0, _ :: _ :: _, h => by simp at h
  | n + 1, a :: b :: rest, h => by
      rw [bubblePass_cons2]
      have hlen : (a :: rest).length ≤ n := by
        simp only [List.length_cons] at h ⊢
        omega
      have hlen' : (b :: rest).length ≤ n := by
        simp only [List.length_cons] at h ⊢
        omega
      by_cases hab : a.score < b.score
      · rw [if_pos hab]
        exact ((bubblePass_perm n (a :: rest) hlen).cons b).trans (List.Perm.swap a b rest)
      · rw [if_neg hab]
        exact (bubblePass_perm n (b :: rest) hlen').cons a

/-- One pass pushes a minimum-score element to the last position. -/
theorem bubblePass_last : ∀ (l : List DocSearchResult) (a : DocSearchResult),
    ∃ q m, bubblePass (a :: l) = q ++ [m] ∧ ∀ x ∈ a :: l, m.score ≤ x.score
  | [], a => by
      refine ⟨[], a, by simp [bubblePass_single], ?_⟩
      intro x hx
      simp only [List.mem_singleton] at hx
      rw [hx]
  | b :: rest, a => by
      by_cases hab : a.score < b.score
      · obtain ⟨q, m, heq, hmin⟩ := bubblePass_last rest a
        refine ⟨b :: q, m, ?_, ?_⟩
        · rw [bubblePass_cons2, if_pos hab, heq]
          rfl
        · intro x hx
          rcases List.mem_cons.mp hx with h1 | h2
          · rw [h1]
            exact hmin a (List.mem_cons_self a rest)
          · rcases List.mem_cons.mp h2 with h3 | h4
            · rw [h3]
              exact le_trans (hmin a (List.mem_cons_self a rest)) (le_of_lt hab)
            · exact hmin x (List.mem_cons_of_mem a h4)
      · obtain ⟨q, m, heq, hmin⟩ := bubblePass_last rest b
        refine ⟨a :: q, m, ?_, ?_⟩
        · rw [bubblePass_cons2, if_neg hab, heq]
          rfl
        · intro x hx
          rcases List.mem_cons.mp hx with h1 | h2
          · rw [h1]
            exact le_trans (hmin b (List.mem_cons_self b rest)) (not_lt.mp hab)
          · exact hmin x h2

/-- A trailing element no larger than everything before it is untouched by
a pass (this is also why the inner-loop cutoff of the source cannot change
the outcome of a pass). -/
theorem bubblePass_append_min : ∀ (n : Nat) (p : List DocSearchResult)
    (m : DocSearchResult), p.length ≤ n → (∀ x ∈ p, m.score ≤ x.score) →
    bubblePass (p ++ [m]) = bubblePass p ++ [m]
  | _, [], m, _, _ => by
      simp [bubblePass_nil, bubblePass_single]
  | _, [a], m, _, hmin => by
      show bubblePass (a :: [m]) = bubblePass [a] ++ [m]
      rw [bubblePass_single, bubblePass_cons2,
        if_neg (not_lt.mpr (hmin a (List.mem_singleton_self a))), bubblePass_single]
      rfl
  | 0, _ :: _ :: _, _, h, _ => by simp at h
  | n + 1, a :: b :: rest, m, h, hmin => by
      have hlen : (a :: rest).length ≤ n := by
        simp only [List.length_cons] at h ⊢
        omega
      have hlen' : (b :: rest).length ≤ n := by
        simp only [List.length_cons] at h ⊢
        omega
      have hmina : ∀ x ∈ a :: rest, m.score ≤ x.score := by
        intro x hx
        rcases List.mem_cons.mp hx with h1 | h2
        · rw [h1]
          exact hmin a (List.mem_cons_self a _)
        · exact hmin x (List.mem_cons_of_mem a (List.mem_cons_of_mem b h2))
      have hminb : ∀ x ∈ b :: rest, m.score ≤ x.score := by
        intro x hx
        rcases List.mem_cons.mp hx with h1 | h2
        · rw [h1]
          exact hmin b (List.mem_cons_of_mem a (List.mem_cons_self b _))
        · exact hmin x (List.mem_cons_of_mem a (List.mem_cons_of_mem b h2))
      show bubblePass (a :: b :: (rest ++ [m])) = bubblePass (a :: b :: rest) ++ [m]
      rw [bubblePass_cons2, bubblePass_cons2]
      by_cases hab : a.score < b.score
      · rw [if_pos hab, if_pos hab,
          show a :: (rest ++ [m]) = (a :: rest) ++ [m] from rfl,
          bubblePass_append_min n (a :: rest) m hlen hmina]
        rfl
      · rw [if_neg hab, if_neg hab,
          show b :: (rest ++ [m]) = (b :: rest) ++ [m] from rfl,
          bubblePass_append_min n (b :: rest) m hlen' hminb]
        rfl

/-- The outer loop permutes the results. -/
theorem bubbleSortAux_perm : ∀ (fuel : Nat) (l : List DocSearchResult),
    (bubbleSortAux fuel l).Perm l
  | 0, l => List.Perm.refl l
  | fuel + 1, l =>
      (bubbleSortAux_perm fuel (bubblePass l)).trans (bubblePass_perm l.length l le_rfl)

/-- The outer loop never moves a trailing minimum. -/
theorem bubbleSortAux_append_min : ∀ (fuel : Nat) (q : List DocSearchResult)
    (m : DocSearchResult), (∀ x ∈ q, m.score ≤ x.score) →
    bubbleSortAux fuel (q ++ [m]) = bubbleSortAux fuel q ++ [m]
  | 0, _, _, _ => rfl
  | fuel + 1, q, m, hmin => by
      show bubbleSortAux fuel (bubblePass (q ++ [m])) =
        bubbleSortAux fuel (bubblePass q) ++ [m]
      rw [bubblePass_append_min q.length q m le_rfl hmin]
      exact bubbleSortAux_append_min fuel (bubblePass q) m
        (fun x hx => hmin x ((bubblePass_perm q.length q le_rfl).subset hx))

/-- With enough passes the result is sorted by descending score. -/
theorem bubbleSortAux_sorted : ∀ (fuel : Nat) (l : List DocSearchResult),
    l.length ≤ fuel + 1 → SortedDesc (bubbleSortAux fuel l)
  | 0, [], _ => List.Pairwise.nil
  | 0, [a], _ => by
      show SortedDesc [a]
      simp [SortedDesc]
  | 0, _ :: _ :: _, h => by simp at h
  | fuel + 1, [], _ => by
      show SortedDesc (bubbleSortAux fuel (bubblePass []))
      rw [bubblePass_nil]
      exact bubbleSortAux_sorted fuel [] (by simp)
  | fuel + 1, a :: l', h => by
      obtain ⟨q, m, heq, hmin⟩ := bubblePass_last l' a
      show SortedDesc (bubbleSortAux fuel (bubblePass (a :: l')))
      rw [heq]
      have hminq : ∀ x ∈ q, m.score ≤ x.score := by
        intro x hx
        refine hmin x ?_
        refine (bubblePass_perm (a :: l').length (a :: l') le_rfl).subset ?_
        rw [heq]
        exact List.mem_append_left [m] hx
      rw [bubbleSortAux_append_min fuel q m hminq]
      have hlenq : q.length ≤ fuel + 1 := by
        have h1 : (q ++ [m]).length = (a :: l').length := by
          rw [← heq]
          exact (bubblePass_perm (a :: l').length (a :: l') le_rfl).length_eq
        simp only [List.length_append, List.length_cons, List.length_singleton] at h1
        simp only [List.length_cons] at h
        omega
      have hsq := bubbleSortAux_sorted fuel q hlenq
      rw [SortedDesc, List.pairwise_append]
      refine ⟨hsq, by simp, ?_⟩
      intro x hx y hy
      have hxq : x ∈ q := (bubbleSortAux_perm fuel q).subset hx
      simp only [List.mem_singleton] at hy
      subst hy
      exact hminq x hxq

/-- sortByScoreDesc sorts by descending score. -/
theorem sortByScoreDesc_sorted (l : List DocSearchResult) :
    SortedDesc (sortByScoreDesc l) :=
  bubbleSortAux_sorted (l.length - 1) l (by omega)

/-- Truncating the sorted list preserves sortedness (the final limit
step of Search). -/
theorem truncSorted (res : List DocSearchResult) (limit : Int) :
    (if 0 < limit ∧ limit < ((sortByScoreDesc res).length : Int) then
       (sortByScoreDesc res).take limit.toNat
     else sortByScoreDesc res).Pairwise (fun a b => b.score ≤ a.score) := by
  by_cases h : 0 < limit ∧ limit < ((sortByScoreDesc res).length : Int)
  · rw [if_pos h]
    exact List.Pairwise.sublist (List.take_sublist _ _) (sortByScoreDesc_sorted res)
  · rw [if_neg h]
    exact sortByScoreDesc_sorted res

/-! ### Helper lemmas: the drain loop -/

/-- The post-loop success return of Handle is unreachable from inside the
drain loop: the bottom-of-loop exit check runs only right after a record
was received, and receiving required the record channel to be non-nil, so
the check can never see both channels nil. -/
theorem drainLoop_no_completed (ingestOk : Record → Bool) (sched : Nat → Bool) :
    ∀ (fuel : Nat) (st : DrainSt) (k : Nat),
    drainLoop ingestOk sched fuel st ≠ some (.completed k) := by
  intro fuel
  induction fuel with
  | zero =>
      intro st k
      simp [drainLoop]
  | succ fuel ih =>
      intro st k
      rw [drainLoop]
      split
      · simp
      next h1 =>
        split
        next h2 =>
          have hrec : st.recNil = false := by
            revert h2
            cases st.recNil <;> simp
          split
          · exact ih _ k
          next r rest =>
            split
            next h3 =>
              dsimp only
              rw [hrec]
              simp only [Bool.false_and, Bool.false_eq_true, if_false]
              exact ih _ k
            next => simp
        next h2 =>
          split
          · exact ih _ k
          next => simp

/-! ### Concrete fixtures for witnesses and counterexamples -/

/-- A stored record with id r1. -/
def recOld : Record := ⟨"r1", "receipt", "", "", "groceries", [], [], 0, 0⟩

/-- A re-ingested record with the same id r1 and new content. -/
def recNew : Record := ⟨"r1", "receipt", "", "", "electronics", [], [], 0, 0⟩

/-- The embedding the index holds for r1 once it has been indexed. -/
def embOld : RecordEmbedding := ⟨"r1", extractTermsR recOld.content.data, recOld⟩

/-- A record missing both its type and its content. -/
def recNoContent : Record := ⟨"r9", "", "", "", "", [], [], 3, 3⟩

/-- A record with an empty id. -/
def recEmptyID : Record := ⟨"", "receipt", "", "", "stuff", [], [], 0, 0⟩

/-- A record carrying the tag urgent and no metadata. -/
def recTagged : Record := ⟨"t1", "receipt", "", "", "c", [], ["urgent"], 0, 0⟩

/-- A record with no metadata at all. -/
def recMeta : Record := ⟨"t2", "receipt", "", "", "c", [], [], 0, 0⟩

/-- A record sitting in the scrape data channel. -/
def recQueued : Record := ⟨"f1", "receipt", "", "", "queued file", [], [], 0, 0⟩

/-! ### C1 -/

/-- C1, counterexample: with r1 present in storage but absent from the
vector index (the state an initial ingest leaves behind when indexing
never happened), Ingest does not treat the vector-store record-not-found
as non-fatal: it returns the wrapped delete error and stops, with r1
already deleted from storage and the new record neither stored nor
indexed — rather than proceeding to a successful upsert. -/
theorem ingestEmbeddingNotFoundIsFatal :
    recordIngest 5 ⟨[("r1", recOld)], []⟩ recNew =
      (Except.error IngestErr.deleteVectorFailed, ⟨[], []⟩) := by
  decide

/-- C1 (amended): when the ingested id already exists in storage, Ingest
deletes it from storage and then from the vector index; if the index has
no embedding for the id, the vector-store delete error is returned as
fatal (after the storage delete) and the upsert does not proceed; if the
embedding exists, the upsert proceeds and succeeds, leaving the new record
stored with a fresh updated_at and indexed. -/
theorem ingestUpsertDeleteVectorBehavior : ∀ (now : Nat) (st : SysState)
    (rec rOld : Record), lsGet st.storage rec.id = some rOld →
    (mapLookup st.vec rec.id = none →
      recordIngest now st rec =
        (.error .deleteVectorFailed, ⟨mapErase st.storage rec.id, st.vec⟩)) ∧
    (∀ emb, mapLookup st.vec rec.id = some emb → rec.id ≠ "" →
      (recordIngest now st rec).1 = .ok () ∧
      mapLookup (recordIngest now st rec).2.storage rec.id =
        some { rec with updatedAt := now } ∧
      mapLookup (recordIngest now st rec).2.vec rec.id =
        some ⟨rec.id, extractTermsR rec.content.data, rec⟩) := by
  intro now st rec rOld hget
  have hget' : mapLookup st.storage rec.id = some rOld := hget
  constructor
  · intro hvec
    simp only [recordIngest, hget', lsGet, lsDelete, vsDelete, hvec]
  · intro emb hvec hid
    have hres : recordIngest now st rec =
        recordIngestStore now ⟨mapErase st.storage rec.id, mapErase st.vec rec.id⟩ rec := by
      simp only [recordIngest, hget', lsGet, lsDelete, vsDelete, hvec]
    have hstore : recordIngestStore now ⟨mapErase st.storage rec.id, mapErase st.vec rec.id⟩ rec =
        (.ok (), ⟨mapInsert (mapErase st.storage rec.id) rec.id { rec with updatedAt := now },
          mapInsert (mapErase st.vec rec.id) rec.id
            ⟨rec.id, extractTermsR rec.content.data, rec⟩⟩) := by
      simp only [recordIngestStore, lsStore, vsIndex, if_neg hid]
    rw [hres, hstore]
    exact ⟨rfl, mapLookup_mapInsert_self _ _ _, mapLookup_mapInsert_self _ _ _⟩

/-- C1 witness: the amended theorem applied at a concrete state in which
r1 is both stored and indexed; the re-ingest succeeds and replaces both. -/
theorem ingestUpsertDeleteVectorBehavior_witness :
    (recordIngest 7 ⟨[("r1", recOld)], [("r1", embOld)]⟩ recNew).1 = .ok () ∧
    mapLookup (recordIngest 7 ⟨[("r1", recOld)], [("r1", embOld)]⟩ recNew).2.storage "r1" =
      some { recNew with updatedAt := 7 } ∧
    mapLookup (recordIngest 7 ⟨[("r1", recOld)], [("r1", embOld)]⟩ recNew).2.vec "r1" =
      some ⟨"r1", extractTermsR recNew.content.data, recNew⟩ :=
  (ingestUpsertDeleteVectorBehavior 7 ⟨[("r1", recOld)], [("r1", embOld)]⟩ recNew recOld
    rfl).2 embOld rfl (by decide)

/-! ### C2 -/

/-- C2: the drain loop does not terminate once the producer has closed
both channels.  First conjunct: the loop's success exit is unreachable in
any run (the closed-channel branches continue past the bottom-of-loop
check, and the check is false whenever a record was just received), so
Handle can never reach its success return through the loop.  Second
conjunct: on a run where the producer closes both channels immediately
(an empty scrape), the consumer ends up in a select over two nil
channels, blocked forever, under every scheduling of the select — the
loop deadlocks instead of exiting. -/
theorem drainDeadlocksAfterBothClose :
    (∀ (ingestOk : Record → Bool) (sched : Nat → Bool) (fuel : Nat) (st : DrainSt)
        (k : Nat), drainLoop ingestOk sched fuel st ≠ some (.completed k)) ∧
    (∀ sched : Nat → Bool,
      drainLoop (fun _ => true) sched 3 ⟨false, false, [], [], 0⟩ = some .blocked) := by
  constructor
  · intro ingestOk sched fuel st k
    exact drainLoop_no_completed ingestOk sched fuel st k
  · intro sched
    cases h : sched 2 <;> simp [drainLoop, h]

/-! ### C3 -/

/-- C3, counterexample: a per-item scrape error (the producer keeps
walking after sending it) aborts the whole handler the moment it is
received: the drain returns the scrape error immediately, and the record
still queued on the data channel can never be ingested to completion. -/
theorem perItemErrorAbortsHandle :
    drainLoop (fun _ => true) (fun _ => false) 5
      ⟨false, false, [recQueued], ["failed to read file: permission denied"], 0⟩ =
      some .scrapeError ∧
    ∀ (fuel k : Nat), drainLoop (fun _ => true) (fun _ => false) fuel
      ⟨false, false, [recQueued], ["failed to read file: permission denied"], 0⟩ ≠
      some (.completed k) := by
  refine ⟨by decide, fun fuel k => drainLoop_no_completed _ _ fuel _ k⟩

/-- C3 (amended): every error received on the error channel — the
consumer cannot tell per-item errors from fatal ones — makes Handle
return the failure immediately, stopping the drain. -/
theorem errorChannelReceiveAborts : ∀ (ingestOk : Record → Bool) (sched : Nat → Bool)
    (fuel : Nat) (st : DrainSt) (e : String) (rest : List String),
    st.errQ = e :: rest → st.errNil = false → (st.recNil = true ∨ sched fuel = false) →
    drainLoop ingestOk sched (fuel + 1) st = some .scrapeError := by
  intro ingestOk sched fuel st e rest hq hen hpick
  rcases hpick with hp | hp
  · simp [drainLoop, hp, hen, hq]
  · simp [drainLoop, hp, hen, hq]

/-- C3 witness: the amended theorem applied to a run where the fatal-walk
error is the only item; Handle returns the scrape error. -/
theorem errorChannelReceiveAborts_witness :
    drainLoop (fun _ => true) (fun _ => false) 1
      ⟨false, false, [], ["failed to walk directory"], 0⟩ = some .scrapeError :=
  errorChannelReceiveAborts (fun _ => true) (fun _ => false) 0
    ⟨false, false, [], ["failed to walk directory"], 0⟩ "failed to walk directory" []
    rfl rfl (Or.inr rfl)

/-! ### C5 -/

/-- C5: in the records-package copy of extractTerms the missing
parentheses make every digit a separator, so the input abc123 tokenizes
to the single token abc there — against the spec, the sibling
documents-package copy (second conjunct, where abc123 is one token,
digits included), and the function's own comment. -/
theorem tokenizerSplitsOnDigitsInRecordsVariant :
    extractTermsR "abc123".data = [("abc".data, 1)] ∧
    extractTermsD "abc123".data = [("abc123".data, 1)] := by
  constructor
  · exact extractTermsWith_single sepRecs _ _ (by decide) (by decide)
  · exact extractTermsWith_single sepDocs _ _ (by decide) (by decide)

/-! ### C6 -/

/-- C6, counterexample: RecordIngestor.Ingest performs no validation at
all: a record with empty type and empty content is ingested successfully
— no validation error, and both storage and index are mutated. -/
theorem ingestorSkipsValidation :
    (recordIngest 0 ⟨[], []⟩ recNoContent).1 = .ok () ∧
    mapLookup (recordIngest 0 ⟨[], []⟩ recNoContent).2.storage "r9" =
      some { recNoContent with updatedAt := 0 } := by
  constructor
  · decide
  · decide

/-- C6 (amended): RecordService.Ingest (the validating service variant)
rejects a record missing id, type or content synchronously: it returns a
validation error and the state is exactly the input state — no mutation
of storage or index. -/
theorem serviceIngestValidatesFirst : ∀ (now : Nat) (st : SysState) (rec : Record),
    rec.id = "" ∨ rec.recType = "" ∨ rec.content = "" →
    ∃ e, serviceIngest now st rec = (.error e, st) := by
  intro now st rec h
  by_cases h1 : rec.id = ""
  · exact ⟨.idRequired, by simp [serviceIngest, h1]⟩
  · by_cases h2 : rec.recType = ""
    · exact ⟨.typeRequired, by simp [serviceIngest, h1, h2]⟩
    · have h3 : rec.content = "" := by tauto
      exact ⟨.contentRequired, by simp [serviceIngest, h1, h2, h3]⟩

/-- C6 witness: the amended theorem applied to the record with missing
type and content in a nonempty system state, which is left untouched. -/
theorem serviceIngestValidatesFirst_witness :
    ∃ e, serviceIngest 4 ⟨[("r1", recOld)], []⟩ recNoContent =
      (.error e, ⟨[("r1", recOld)], []⟩) :=
  serviceIngestValidatesFirst 4 ⟨[("r1", recOld)], []⟩ recNoContent
    (Or.inr (Or.inr rfl))

/-! ### C7 -/

/-- C7, counterexample: neither Store validates the id.  LocalStorage
persists a record with empty id under the empty key (file .json), and
SQLiteStorage inserts a row with empty id; both report success. -/
theorem storeAcceptsEmptyID :
    (lsStore 3 [] recEmptyID).1 = [("", { recEmptyID with updatedAt := 3 })] ∧
    sqlStore [] recEmptyID = .ok [("", recEmptyID)] := by
  constructor
  · decide
  · decide

/-- C7 (amended): Store enforces no precondition on the id: LocalStorage
always persists the record (with bumped updated_at) under whatever id it
carries, the empty string included; SQLiteStorage's INSERT succeeds for
any id not already present, failing only on a duplicate. -/
theorem storePersistsAnyID : ∀ (now : Nat) (st : LSState) (rec : Record)
    (tbl : List (String × Record)),
    mapLookup (lsStore now st rec).1 rec.id = some { rec with updatedAt := now } ∧
    (mapLookup tbl rec.id = none → sqlStore tbl rec = .ok (mapInsert tbl rec.id rec)) := by
  intro now st rec tbl
  constructor
  · exact mapLookup_mapInsert_self st rec.id { rec with updatedAt := now }
  · intro h
    simp [sqlStore, h]

/-- C7 witness: the amended theorem applied to the empty-id record over
the empty stores: both Stores succeed and persist under the empty key. -/
theorem storePersistsAnyID_witness :
    mapLookup (lsStore 3 [] recEmptyID).1 recEmptyID.id =
      some { recEmptyID with updatedAt := 3 } ∧
    sqlStore [] recEmptyID = .ok (mapInsert [] recEmptyID.id recEmptyID) :=
  ⟨(storePersistsAnyID 3 [] recEmptyID []).1,
    (storePersistsAnyID 3 [] recEmptyID []).2 rfl⟩

/-! ### C4 -/

/-- A document whose concatenated text tokenizes to the single term
programming, stored under id a. -/
def docA : Document := ⟨"a", "", "", "programming"⟩

/-- The same content under id b. -/
def docB : Document := ⟨"b", "", "", "programming"⟩

/-- The search query, as Search receives it. -/
def qChars : List Char := "programming".data

/-- The exact rational vector underlying the embedding of the term
programming: one-hot at its hashed slot. -/
def vqC4 : List ℚ :=
  (List.replicate vectorSize (0 : ℚ)).set (simpleHash "programming".data % vectorSize) 1

/-- The embedding Index stores for docA (its text embeds to the one-hot
programming vector). -/
noncomputable def embA : DocumentEmbedding :=
  ⟨"a", termsToVector (extractTermsD qChars), docA⟩

/-- The embedding Index stores for docB: the same vector, different id. -/
noncomputable def embB : DocumentEmbedding :=
  ⟨"b", termsToVector (extractTermsD qChars), docB⟩

/-- The one-hot programming vector has unit sum of squares. -/
theorem vqC4_sumSq : sumSqQ vqC4 = 1 := by
  have hidx : simpleHash "programming".data % vectorSize < vectorSize :=
    Nat.mod_lt _ (by simp [vectorSize])
  show List.foldl (fun s x => s + x * x) 0 vqC4 = 1
  unfold vqC4
  rw [foldl_sq_set 1 vectorSize _ 0 hidx]
  norm_num

/-- The query vector for programming evaluates to the cast one-hot
vector. -/
theorem qVec_eval : termsToVector (extractTermsD qChars) = castVec vqC4 := by
  have hterms : extractTermsD qChars = [("programming".data, 1)] :=
    extractTermsWith_single sepDocs _ _ (by decide) (by decide)
  rw [hterms]
  unfold vqC4
  exact termsToVector_single "programming".data

/-- A two-element pass with no strict score increase keeps the order. -/
theorem sortPair (r1 r2 : DocSearchResult) (h : ¬ r1.score < r2.score) :
    sortByScoreDesc [r1, r2] = [r1, r2] := by
  show bubblePass [r1, r2] = [r1, r2]
  rw [bubblePass_cons2, if_neg h, bubblePass_single]

/-- Evaluation of Search over two stored embeddings that both carry the
one-hot programming vector: each scores cosine one against the query
programming, and the output preserves the enumeration order of the
embeddings map. -/
theorem localSearch_pair_eval (x y : DocumentEmbedding)
    (hx : x.vector = castVec vqC4) (hy : y.vector = castVec vqC4) :
    localSearch [x, y] qChars 10 = [⟨x.document, 1⟩, ⟨y.document, 1⟩] := by
  have hcos : cosineSimilarity (castVec vqC4) (castVec vqC4) = 1 :=
    cosine_castVec_self vqC4 vqC4_sumSq
  unfold localSearch
  rw [if_neg (by simp)]
  simp only [List.foldl_cons, List.foldl_nil, qVec_eval, hx, hy, hcos, zero_lt_one,
    if_true, List.nil_append, List.singleton_append]
  rw [sortPair ⟨x.document, 1⟩ ⟨y.document, 1⟩ (by norm_num)]
  rw [if_neg (by norm_num)]

/-- C4, counterexample: Search's output order is not a function of the
stored embeddings.  Two enumeration orders of the same two stored
embeddings (identical vectors, ids a and b) both score one, and the
bubble sort leaves the tied pair in enumeration order, so the two runs
return differently ordered lists — and the second run is not in
ascending-id order either.  Go map iteration order is unspecified, so
the tie order is non-deterministic. -/
theorem searchOrderFollowsMapOrder :
    localSearch [embA, embB] qChars 10 = [⟨docA, 1⟩, ⟨docB, 1⟩] ∧
    localSearch [embB, embA] qChars 10 = [⟨docB, 1⟩, ⟨docA, 1⟩] ∧
    localSearch [embA, embB] qChars 10 ≠ localSearch [embB, embA] qChars 10 := by
  have h1 := localSearch_pair_eval embA embB qVec_eval qVec_eval
  have h2 := localSearch_pair_eval embB embA qVec_eval qVec_eval
  refine ⟨h1, h2, ?_⟩
  rw [h1, h2]
  intro hcontra
  have hdoc : docA = docB :=
    congrArg (fun l => (l.headD ⟨docA, 1⟩).document) hcontra
  have hid : docA.id = docB.id := congrArg Document.id hdoc
  revert hid
  decide

/-- C4 (amended): Search does return its results sorted by descending
score (the bubble sort is a correct full sort), for every index state,
query and limit; but ties are kept in the enumeration order of the
embeddings map rather than broken by ascending id, so the output order
is not deterministic across runs. -/
theorem searchSortedByDescendingScore : ∀ (embs : List DocumentEmbedding)
    (query : List Char) (limit : Int),
    (localSearch embs query limit).Pairwise (fun a b => b.score ≤ a.score) := by
  intro embs query limit
  unfold localSearch
  by_cases he : embs.isEmpty = true
  · rw [if_pos he]
    exact List.Pairwise.nil
  · rw [if_neg he]
    exact truncSorted _ _

/-! ### C8 -/

/-- C8, counterexample: the two filter implementations each break the
claimed semantics.  The service variant routes a tag filter to the
metadata map, so a record carrying the tag urgent fails the filter; the
part_008 storage variant ignores every key other than type and tag, so a
vendor filter passes a record with no metadata at all. -/
theorem filtersDivergeFromClaim :
    matchesFiltersService recTagged [("tag", GoValue.str "urgent")] = false ∧
    recTagged.tags.contains "urgent" = true ∧
    matchesFiltersStorage recMeta [("vendor", GoValue.str "acme")] = true ∧
    mapLookup recMeta.metadata "vendor" = none := by
  refine ⟨by decide, by decide, by decide, by decide⟩

/-- C8 (amended): both filter variants are conjunctive over the entries
they inspect, but with different per-entry semantics: the service variant
requires type equality for the key type and exact metadata equality for
every other key, tag included; the storage variant checks type and tag
(only when the filter value is a string) and accepts every other key
unconditionally. -/
theorem filtersConjunctiveByVariant : ∀ (rec : Record) (fs : List (String × GoValue)),
    matchesFiltersService rec fs = fs.all (fun p => svcEntryHolds rec p.1 p.2) ∧
    matchesFiltersStorage rec fs = fs.all (fun p => storEntryHolds rec p.1 p.2) := by
  intro rec fs
  induction fs with
  | nil => exact ⟨rfl, rfl⟩
  | cons p rest ih =>
      obtain ⟨k, v⟩ := p
      constructor
      · rw [matchesFiltersService]
        by_cases hk : k = "type"
        · by_cases ht : rec.recType = goSprint v
          · simp [hk, ht, svcEntryHolds, ih.1]
          · simp [hk, ht, svcEntryHolds]
        · cases hm : mapLookup rec.metadata k with
          | none => simp [hk, hm, svcEntryHolds]
          | some mv =>
              by_cases hv : mv = v
              · simp [hk, hm, hv, svcEntryHolds, ih.1]
              · simp [hk, hm, hv, svcEntryHolds]
      · rw [matchesFiltersStorage]
        by_cases hk : k = "type"
        · by_cases ht : matchesTypeFilter rec v = true
          · simp [hk, ht, storEntryHolds, ih.2]
          · simp [hk, ht, storEntryHolds]
        · by_cases hk2 : k = "tag"
          · by_cases htag : matchesTagFilter rec v = true
            · simp [hk, hk2, htag, storEntryHolds, ih.2]
            · simp [hk, hk2, htag, storEntryHolds]
          · simp [hk, hk2, storEntryHolds, ih.2]

/-! ### C9 -/

/-- C9: embedding the empty text yields the zero vector in both
extractTerms variants — the normalization guard leaves a zero-magnitude
vector unchanged instead of dividing by zero — and cosine similarity of
the zero vector with any vector is zero. -/
theorem embedEmptyZeroAndCosineZero :
    termsToVector (extractTermsD []) = List.replicate vectorSize (0 : ℝ) ∧
    termsToVector (extractTermsR []) = List.replicate vectorSize (0 : ℝ) ∧
    ∀ b : List ℝ, cosineSimilarity (List.replicate vectorSize (0 : ℝ)) b = 0 := by
  have hD : extractTermsD [] = [] := by decide
  have hR : extractTermsR [] = [] := by decide
  have hcv : castVec (List.replicate vectorSize 0) = List.replicate vectorSize (0 : ℝ) := by
    unfold castVec
    rw [List.map_replicate]
    norm_num
  have hz : termsToVector [] = List.replicate vectorSize (0 : ℝ) := by
    simp only [termsToVector, accumVector, List.foldl_nil, hcv,
      foldl_sq_replicate_zero_real, Real.sqrt_zero]
    rw [if_neg (lt_irrefl (0 : ℝ))]
  refine ⟨by rw [hD, hz], by rw [hR, hz], ?_⟩
  intro b
  unfold cosineSimilarity
  by_cases hl : (List.replicate vectorSize (0 : ℝ)).length ≠ b.length
  · rw [if_pos hl]
  · rw [if_neg hl]
    have hmag : Real.sqrt (List.foldl (fun s x => s + x * x) 0
        (List.replicate vectorSize (0 : ℝ))) = 0 := by
      rw [foldl_sq_replicate_zero_real, Real.sqrt_zero]
    simp only [hmag]
    simp

/-! ### C10 -/

/-- C10: the hashed slot index of every term is strictly below the vector
size, and the accumulated vector always has exactly that many slots, so
vector[idx] += freq in termsToVector never indexes out of bounds and the
construction is total. -/
theorem termSlotInBounds : ∀ (t : List Char) (terms : List (List Char × ℚ)),
    (accumVector terms).length = vectorSize ∧
    simpleHash t % vectorSize < (accumVector terms).length := by
  intro t terms
  refine ⟨accumVector_length terms, ?_⟩
  rw [accumVector_length terms]
  exact Nat.mod_lt _ (by simp [vectorSize])

end Assistant
